import Mathlib

/-!
Verification of the Swarm_NEAT maze-navigation core: a shallow embedding of
the maze environment (`maze.py`), the agent rollout state machine (`agent.py`),
the two fitness evaluators (`fitness.py`, `fitness_v3.py`), the stagnation
monitor and diversity injector (`adaptive_mutation.py`), and the top-5 genome
archive update of `eval_genomes` (`simulation.py`), together with theorems
settling the specification claims about them.

Python floats are modelled as `ℚ` where the code only performs field
arithmetic on exactly-representable values, and as `ℝ` where transcendental
functions (`exp`, `log`, `log2`) are involved.  Python `//` on ints is
`Int.fdiv` (floor division); `int(...)` truncation of a nonnegative value is
natural-number division.
-/

/-- One food item, mirroring the dicts built in `Maze.__init__`
(`grid_x`, `grid_y`, `big`, `eaten`). -/
structure FoodItem where
  grid_x : ℤ
  grid_y : ℤ
  big : Bool
  eaten : Bool
deriving DecidableEq, Repr

/-- The maze state produced by `Maze.__init__` (rendering-only fields such as
`cell_size` are omitted).  `layout` is the list of rows of characters. -/
structure Maze where
  layout : List (List Char)
  rows : ℕ
  cols : ℕ
  start_pos : ℤ × ℤ
  food_items : List FoodItem
deriving DecidableEq, Repr

/-- Character of `layout` at column `x`, row `y` (`self.layout[grid_y][grid_x]`
for in-range nonnegative indices; out-of-range reads default to `'0'`, which
the Python source never performs on the indices it guards). -/
def Maze.cellAt (m : Maze) (x y : ℤ) : Char :=
  (((m.layout.getD y.toNat []).getD x.toNat '0'))

/-- `Maze.is_wall` from `maze.py`:
returns `True` when `grid_y < 1 or grid_y > rows - 1`, when
`grid_x < 1 or grid_x > cols - 1`, and otherwise tests the layout cell
against the wall symbol `'1'`. -/
def Maze.is_wall (m : Maze) (grid_x grid_y : ℤ) : Bool :=
  if grid_y < 1 ∨ grid_y > (m.rows : ℤ) - 1 then true
  else if grid_x < 1 ∨ grid_x > (m.cols : ℤ) - 1 then true
  else m.cellAt grid_x grid_y = '1'

/-- Food items contributed by one layout row: scans characters left to right
at row index `y`, starting at column index `x`, emitting a small item for
`'f'` and a big item for `'F'` (the parse loop of `Maze.__init__`). -/
def parseRowFood (y : ℕ) : ℕ → List Char → List FoodItem
  | _, [] => []
  | x, c :: rest =>
    (if c = 'f' then [⟨x, y, false, false⟩]
     else if c = 'F' then [⟨x, y, true, false⟩]
     else []) ++ parseRowFood y (x + 1) rest

/-- Food items of all rows from row index `y` down. -/
def parseFoodAux : ℕ → List (List Char) → List FoodItem
  | _, [] => []
  | y, row :: rest => parseRowFood y 0 row ++ parseFoodAux (y + 1) rest

/-- All explicitly marked food cells of a layout, in row-major scan order. -/
def parseFood (layout : List (List Char)) : List FoodItem :=
  parseFoodAux 0 layout

/-- Start positions `(x, y)` contributed by one row. -/
def parseRowStart (y : ℕ) : ℕ → List Char → List (ℤ × ℤ)
  | _, [] => []
  | x, c :: rest =>
    (if c = 'S' then [((x : ℤ), (y : ℤ))] else []) ++ parseRowStart y (x + 1) rest

/-- Start positions of all rows from row index `y` down. -/
def parseStartAux : ℕ → List (List Char) → List (ℤ × ℤ)
  | _, [] => []
  | y, row :: rest => parseRowStart y 0 row ++ parseStartAux (y + 1) rest

/-- The start position recorded by the parse loop: `start_pos` is overwritten
on every `'S'`, so the last occurrence in scan order wins. -/
def parseStart (layout : List (List Char)) : Option (ℤ × ℤ) :=
  (parseStartAux 0 layout).getLast?

/-- Failure mode of the `Maze` constructor. -/
inductive MazeErr where
  | noStart
deriving DecidableEq, Repr

/-- `Maze.__init__`: parses start and food from the layout, raises when no
start symbol exists, and falls back to randomized placement only when the
layout marks no food at all.  The output of the RNG-driven
`_randomize_food_positions` is abstracted as the `randomFood` argument
(it is a function of `num_small_food` and `num_big_food`). -/
def Maze.init (layout : List (List Char)) (num_small_food num_big_food : ℕ)
    (randomFood : ℕ → ℕ → List FoodItem) : Except MazeErr Maze :=
  let rows := layout.length
  let cols := (layout.headD []).length
  let food := parseFood layout
  match parseStart layout with
  | none => .error .noStart
  | some s =>
    .ok { layout := layout, rows := rows, cols := cols, start_pos := s,
          food_items :=
            if food.length = 0 then randomFood num_small_food num_big_food
            else food }

/- ===== Stagnation monitor (`adaptive_mutation.detect_stagnation`) ===== -/

/-- Python `max(...)` over a list of fitness values; the source only applies
it to nonempty windows (history length is at least 30 at every use). -/
def listMax : List ℚ → ℚ
  | [] => 0
  | x :: xs => xs.foldl max x

/-- `max(best_fitness_history[-10:])`. -/
def recentBest (hist : List ℚ) : ℚ :=
  listMax (hist.drop (hist.length - 10))

/-- `max(best_fitness_history[-30:-10])`: the 20 entries that are 11 to 30
places from the end (for histories of length at least 30). -/
def historicalBest (hist : List ℚ) : ℚ :=
  listMax ((hist.drop (hist.length - 30)).take 20)

/-- `detect_stagnation` from `adaptive_mutation.py`.  The mutable counter dict
is modelled by passing the counter in and returning the updated value:
the result is `(is_stagnant, tier, updated counter)`. -/
def detect_stagnation (hist : List ℚ) (counter : ℕ) : Bool × ℕ × ℕ :=
  if hist.length < 30 then (false, 0, counter)
  else
    let is_stagnant := recentBest hist < historicalBest hist * (102 / 100)
    let count := if is_stagnant then counter + 1 else 0
    let tier := if 25 ≤ count then 3 else if 10 ≤ count then 2
                else if 1 ≤ count then 1 else 0
    (decide is_stagnant, tier, count)

/-- C3 counterexample input: 29 generations of constant best fitness. -/
def shortHist : List ℚ := List.replicate 29 1

/-- The claim predicts that on any non-stagnant call the counter is reset to
`0`; with a history shorter than 30 entries the code instead returns early,
reporting non-stagnant while leaving a nonzero counter untouched. -/
theorem detect_stagnation_short_history_keeps_counter :
    (detect_stagnation shortHist 5).1 = false ∧
      (detect_stagnation shortHist 5).2.2 = 5 ∧ (5 : ℕ) ≠ 0 := by
  refine ⟨?_, ?_, by decide⟩ <;> simp [detect_stagnation, shortHist]

/-- C3 (amended): with fewer than 30 recorded generations, `detect_stagnation`
returns non-stagnant with tier 0 and leaves the counter unchanged; once at
least 30 entries exist, it declares stagnation exactly when the maximum of
the last 10 entries is below `1.02` times the maximum of the entries 11 to 30
from the end, increments the counter by exactly 1 on stagnation and resets it
to 0 otherwise, and reports tier 3 for counter values `≥ 25`, tier 2 for
`10..24`, tier 1 for `1..9`, and tier 0 for counter `0`. -/
theorem detect_stagnation_spec (hist : List ℚ) (counter : ℕ) :
    (hist.length < 30 → detect_stagnation hist counter = (false, 0, counter)) ∧
    (30 ≤ hist.length →
      ((detect_stagnation hist counter).1 = true ↔
        recentBest hist < historicalBest hist * (102 / 100)) ∧
      ((detect_stagnation hist counter).1 = true →
        (detect_stagnation hist counter).2.2 = counter + 1) ∧
      ((detect_stagnation hist counter).1 = false →
        (detect_stagnation hist counter).2.2 = 0) ∧
      (detect_stagnation hist counter).2.1 =
        (if 25 ≤ (detect_stagnation hist counter).2.2 then 3
         else if 10 ≤ (detect_stagnation hist counter).2.2 then 2
         else if 1 ≤ (detect_stagnation hist counter).2.2 then 1 else 0)) := by
  constructor
  · intro h
    simp [detect_stagnation, h]
  · intro h
    have hnot : ¬ hist.length < 30 := not_lt.mpr h
    by_cases hs : recentBest hist < historicalBest hist * (102 / 100)
    · refine ⟨by simp [detect_stagnation, hnot, hs], ?_, ?_, ?_⟩ <;>
        simp [detect_stagnation, hnot, hs]
    · refine ⟨by simp [detect_stagnation, hnot, hs], ?_, ?_, ?_⟩ <;>
        simp [detect_stagnation, hnot, hs]

/-- A constant history of 30 generations. -/
def flatHist : List ℚ := List.replicate 30 1

theorem listMax_replicate (n : ℕ) (q : ℚ) : listMax (List.replicate (n + 1) q) = q := by
  induction n with
  | zero => simp [listMax]
  | succ k ih =>
    have : List.replicate (k + 1 + 1) q = q :: List.replicate (k + 1) q := rfl
    rw [this]
    have hrep : List.replicate (k + 1) q = q :: List.replicate k q := rfl
    simp only [listMax, hrep, List.foldl_cons, max_self] at ih ⊢
    exact ih

/-- Witness for the amended C3 statement: on a 30-long flat history with
counter 0, both branches of the specification are exercised (the short-history
clause vacuously, the main clause concretely: the call is stagnant, the
counter becomes 1, and tier 1 is reported). -/
theorem detect_stagnation_spec_witness :
    (30 ≤ flatHist.length) ∧
    ((detect_stagnation flatHist 0).1 = true ↔
      recentBest flatHist < historicalBest flatHist * (102 / 100)) ∧
    ((detect_stagnation flatHist 0).1 = true →
      (detect_stagnation flatHist 0).2.2 = 0 + 1) ∧
    ((detect_stagnation flatHist 0).1 = false →
      (detect_stagnation flatHist 0).2.2 = 0) ∧
    (detect_stagnation flatHist 0).2.1 =
      (if 25 ≤ (detect_stagnation flatHist 0).2.2 then 3
       else if 10 ≤ (detect_stagnation flatHist 0).2.2 then 2
       else if 1 ≤ (detect_stagnation flatHist 0).2.2 then 1 else 0) := by
  have h30 : 30 ≤ flatHist.length := by simp [flatHist]
  exact ⟨h30, (detect_stagnation_spec flatHist 0).2 h30⟩

/- ===== Agent rollout state machine (`agent.py`) ===== -/

/-- Marks the first unconsumed food item at `(x, y)` as eaten, returning its
size class and the updated list (`Maze.get_food_at` followed by the in-place
`food['eaten'] = True` of `Agent.step`); `none` when no such item exists. -/
def eatFirstAt : List FoodItem → ℤ → ℤ → Option (Bool × List FoodItem)
  | [], _, _ => none
  | f :: rest, x, y =>
    if f.grid_x = x ∧ f.grid_y = y ∧ f.eaten = false then
      some (f.big, { f with eaten := true } :: rest)
    else
      (eatFirstAt rest x y).map (fun p => (p.1, f :: p.2))

/-- `self.visited_positions[(x, y)] = self.visited_positions.get((x, y), 0) + 1`,
with the dict modelled as an association list. -/
def bumpVisit (v : List ((ℤ × ℤ) × ℕ)) (p : ℤ × ℤ) : List ((ℤ × ℤ) × ℕ) :=
  if (v.find? (fun e => e.1 = p)).isSome then
    v.map (fun e => if e.1 = p then (e.1, e.2 + 1) else e)
  else
    v ++ [(p, 1)]

/-- The mutable state of one `Agent` (the sensing helpers and the
distance-to-food bookkeeping fields, which `step` never reads, are omitted). -/
structure Agent where
  maze : Maze
  gx : ℤ
  gy : ℤ
  energy : ℚ
  max_energy : ℚ
  energy_per_step : ℚ
  energy_per_collision : ℚ
  steps : ℕ
  collisions : ℕ
  collected_small : ℕ
  collected_big : ℕ
  alive : Bool
  trajectory : List (ℤ × ℤ)
  collision_steps : List ℕ
  visited_positions : List ((ℤ × ℤ) × ℕ)
  max_steps : ℕ

/-- `Agent.__init__` (the constructor additionally raises when the start cell
is a wall; every agent considered below starts on a floor cell). -/
def mkAgent (maze : Maze) (max_steps : ℕ) : Agent :=
  { maze := maze
    gx := maze.start_pos.1
    gy := maze.start_pos.2
    energy := 150
    max_energy := 150
    energy_per_step := 1 / 2
    energy_per_collision := 5
    steps := 0
    collisions := 0
    collected_small := 0
    collected_big := 0
    alive := true
    trajectory := [(maze.start_pos.1, maze.start_pos.2)]
    collision_steps := []
    visited_positions := [((maze.start_pos.1, maze.start_pos.2), 1)]
    max_steps := max max_steps 1 }

/-- Target x-coordinate of a move (`2` = left, `3` = right). -/
def moveX (gx : ℤ) (direction_index : ℕ) : ℤ :=
  if direction_index = 2 then gx - 1 else if direction_index = 3 then gx + 1 else gx

/-- Target y-coordinate of a move (`0` = up, `1` = down). -/
def moveY (gy : ℤ) (direction_index : ℕ) : ℤ :=
  if direction_index = 0 then gy - 1 else if direction_index = 1 then gy + 1 else gy

/-- `Agent.step` from `agent.py`: dead agents are inert; zero-or-less energy
kills; otherwise per-step energy is drained, a wall move costs the collision
penalty and leaves the position unchanged, and a floor move updates position
and eats any unconsumed food there (energy capped at `max_energy`). -/
def Agent.step (a : Agent) (direction_index : ℕ) : Agent :=
  if a.alive = false then a
  else if a.energy ≤ 0 then { a with alive := false }
  else if a.maze.is_wall (moveX a.gx direction_index) (moveY a.gy direction_index) then
    { a with steps := a.steps + 1,
             energy := a.energy - a.energy_per_step - a.energy_per_collision,
             collisions := a.collisions + 1,
             collision_steps := a.collision_steps ++ [a.steps + 1],
             trajectory := a.trajectory ++ [(a.gx, a.gy)],
             visited_positions := bumpVisit a.visited_positions (a.gx, a.gy),
             alive := if a.energy - a.energy_per_step - a.energy_per_collision ≤ 0
                      then false else a.alive }
  else
    match eatFirstAt a.maze.food_items (moveX a.gx direction_index)
        (moveY a.gy direction_index) with
    | none =>
      { a with steps := a.steps + 1,
               gx := moveX a.gx direction_index, gy := moveY a.gy direction_index,
               energy := a.energy - a.energy_per_step,
               trajectory := a.trajectory ++
                 [(moveX a.gx direction_index, moveY a.gy direction_index)],
               visited_positions := bumpVisit a.visited_positions
                 (moveX a.gx direction_index, moveY a.gy direction_index) }
    | some (big, food2) =>
      { a with steps := a.steps + 1,
               gx := moveX a.gx direction_index, gy := moveY a.gy direction_index,
               maze := { a.maze with food_items := food2 },
               collected_big := if big then a.collected_big + 1 else a.collected_big,
               collected_small := if big then a.collected_small else a.collected_small + 1,
               energy := if big then min a.max_energy (a.energy - a.energy_per_step + 80)
                         else min a.max_energy (a.energy - a.energy_per_step + 40),
               trajectory := a.trajectory ++
                 [(moveX a.gx direction_index, moveY a.gy direction_index)],
               visited_positions := bumpVisit a.visited_positions
                 (moveX a.gx direction_index, moveY a.gy direction_index) }

/-- Energy-related state that `Agent.step` maintains: nonnegative cost
parameters, a positive cap, and energy strictly above
`-(energy_per_step + energy_per_collision)` and at most `max_energy`. -/
def EnergyInv (a : Agent) : Prop :=
  0 ≤ a.energy_per_step ∧ 0 ≤ a.energy_per_collision ∧ 0 < a.max_energy ∧
    -(a.energy_per_step + a.energy_per_collision) < a.energy ∧ a.energy ≤ a.max_energy

theorem step_params (a : Agent) (d : ℕ) :
    (a.step d).energy_per_step = a.energy_per_step ∧
      (a.step d).energy_per_collision = a.energy_per_collision ∧
      (a.step d).max_energy = a.max_energy := by
  unfold Agent.step
  split
  · exact ⟨rfl, rfl, rfl⟩
  · split
    · exact ⟨rfl, rfl, rfl⟩
    · split
      · exact ⟨rfl, rfl, rfl⟩
      · rcases h : eatFirstAt a.maze.food_items (moveX a.gx d) (moveY a.gy d) with
          _ | ⟨big, food2⟩ <;> simp [h]

theorem step_energyInv {a : Agent} (d : ℕ) (h : EnergyInv a) : EnergyInv (a.step d) := by
  obtain ⟨h1, h2, h3, h4, h5⟩ := h
  unfold Agent.step
  split
  · exact ⟨h1, h2, h3, h4, h5⟩
  · split
    · exact ⟨h1, h2, h3, h4, h5⟩
    · rename_i halive hpos
      rw [not_le] at hpos
      split
      · refine ⟨h1, h2, h3, ?_, ?_⟩ <;> simp only
        · linarith
        · linarith
      · rcases hf : eatFirstAt a.maze.food_items (moveX a.gx d) (moveY a.gy d) with
          _ | ⟨big, food2⟩
        · refine ⟨h1, h2, h3, ?_, ?_⟩ <;> simp only
          · linarith
          · linarith
        · refine ⟨h1, h2, h3, ?_, ?_⟩ <;> simp only
          · rcases big with _ | _ <;> simp only [Bool.false_eq_true, if_true, if_false]
            · exact lt_min (by linarith) (by linarith)
            · exact lt_min (by linarith) (by linarith)
          · rcases big with _ | _ <;>
              simp only [Bool.false_eq_true, if_true, if_false] <;>
              exact min_le_left _ _

theorem foldl_step_params (dirs : List ℕ) (a : Agent) :
    ((dirs.foldl Agent.step a).energy_per_step = a.energy_per_step ∧
      (dirs.foldl Agent.step a).energy_per_collision = a.energy_per_collision ∧
      (dirs.foldl Agent.step a).max_energy = a.max_energy) := by
  induction dirs generalizing a with
  | nil => exact ⟨rfl, rfl, rfl⟩
  | cons d rest ih =>
    obtain ⟨p1, p2, p3⟩ := ih (a.step d)
    obtain ⟨q1, q2, q3⟩ := step_params a d
    exact ⟨by rw [List.foldl_cons, p1, q1], by rw [List.foldl_cons, p2, q2],
           by rw [List.foldl_cons, p3, q3]⟩

theorem foldl_step_energyInv (dirs : List ℕ) (a : Agent) (h : EnergyInv a) :
    EnergyInv (dirs.foldl Agent.step a) := by
  induction dirs generalizing a with
  | nil => exact h
  | cons d rest ih =>
    rw [List.foldl_cons]
    exact ih _ (step_energyInv d h)

/-- C5 (amended): along every sequence of `step` calls from a freshly
constructed agent, energy stays at most `max_energy` (150), but the lower
bound `0` of the claim fails; the true lower bound is
`-(energy_per_step + energy_per_collision) = -11/2`, strict: energy can
become negative on the tick that kills the agent. -/
theorem agent_energy_bounds (m : Maze) (ms : ℕ) (dirs : List ℕ) :
    (dirs.foldl Agent.step (mkAgent m ms)).energy ≤ 150 ∧
      -(11 / 2 : ℚ) < (dirs.foldl Agent.step (mkAgent m ms)).energy := by
  have h0 : EnergyInv (mkAgent m ms) := by
    refine ⟨by norm_num [mkAgent], by norm_num [mkAgent], by norm_num [mkAgent],
            by norm_num [mkAgent], by norm_num [mkAgent]⟩
  have h := foldl_step_energyInv dirs (mkAgent m ms) h0
  obtain ⟨p1, p2, p3⟩ := foldl_step_params dirs (mkAgent m ms)
  obtain ⟨_, _, _, h4, h5⟩ := h
  constructor
  · have : (mkAgent m ms).max_energy = 150 := rfl
    rw [p3, this] at h5
    exact h5
  · rw [p1, p2] at h4
    have he : (mkAgent m ms).energy_per_step = 1 / 2 := rfl
    have hc : (mkAgent m ms).energy_per_collision = 5 := rfl
    rw [he, hc] at h4
    calc -(11 / 2 : ℚ) = -(1 / 2 + 5) := by norm_num
    _ < _ := h4

/-- A closed 3×4 maze whose start cell is surrounded by walls above and below:
layout `["1111", "1Sf1", "1111"]`, as parsed by `Maze.__init__`. -/
def boxMaze : Maze :=
  { layout := [['1', '1', '1', '1'], ['1', 'S', 'f', '1'], ['1', '1', '1', '1']],
    rows := 3, cols := 4, start_pos := (1, 1),
    food_items := [⟨2, 1, false, false⟩] }

/-- Agent state after `k` consecutive upward moves (direction 0) in `boxMaze`;
every one of them is a wall collision. -/
def upAgent (k : ℕ) : Agent :=
  (List.replicate k 0).foldl Agent.step (mkAgent boxMaze 300)

theorem upAgent_succ (k : ℕ) : upAgent (k + 1) = (upAgent k).step 0 := by
  unfold upAgent
  rw [List.replicate_succ', List.foldl_append, List.foldl_cons, List.foldl_nil]

theorem upAgent_spec : ∀ k, k ≤ 27 →
    (upAgent k).alive = true ∧ (upAgent k).energy = 150 - (11 / 2) * k ∧
      (upAgent k).gx = 1 ∧ (upAgent k).gy = 1 ∧ (upAgent k).maze = boxMaze ∧
      (upAgent k).energy_per_step = 1 / 2 ∧ (upAgent k).energy_per_collision = 5 := by
  intro k
  induction k with
  | zero => exact fun _ => ⟨rfl, by norm_num [upAgent, mkAgent], rfl, rfl, rfl, rfl, rfl⟩
  | succ k ih =>
    intro hk1
    have hk : k ≤ 27 := Nat.le_of_succ_le hk1
    have hk26 : k ≤ 26 := by omega
    have hkq : (k : ℚ) ≤ 26 := by exact_mod_cast hk26
    obtain ⟨ha, he, hx, hy, hm, hes, hec⟩ := ih hk
    rw [upAgent_succ]
    unfold Agent.step
    rw [ha, hx, hy, hm, hes, hec, he]
    have hwall : boxMaze.is_wall (moveX 1 0) (moveY 1 0) = true := by decide
    have hpos : ¬(150 - 11 / 2 * (k : ℚ) ≤ 0) := by push_neg; linarith
    have halive2 : ¬(150 - 11 / 2 * (k : ℚ) - 1 / 2 - 5 ≤ 0) := by push_neg; linarith
    simp only [Bool.true_eq_false, if_false, if_neg hpos, hwall, if_true, if_neg halive2]
    refine ⟨?_, ?_, ?_, ?_, ?_, ?_, ?_⟩ <;> first
      | trivial
      | (push_cast; ring)

/-- C5 counterexample: after 28 consecutive collision steps in `boxMaze`
(each draining `energy_per_step + energy_per_collision = 5.5`), the freshly
constructed agent reaches energy `150 - 28 · 5.5 = -4 < 0`, a reachable state
outside the claimed interval `[0, max_energy]`. -/
theorem agent_energy_negative_reachable :
    ((List.replicate 28 0).foldl Agent.step (mkAgent boxMaze 300)).energy < 0 := by
  obtain ⟨ha, he, hx, hy, hm, hes, hec⟩ := upAgent_spec 27 (le_refl 27)
  have h28 : (List.replicate 28 0).foldl Agent.step (mkAgent boxMaze 300) =
      (upAgent 27).step 0 := upAgent_succ 27
  rw [h28]
  unfold Agent.step
  rw [ha, hx, hy, hm, hes, hec, he]
  have hwall : boxMaze.is_wall (moveX 1 0) (moveY 1 0) = true := by decide
  have hpos : ¬(150 - 11 / 2 * ((27 : ℕ) : ℚ) ≤ 0) := by push_neg; push_cast; linarith
  simp only [Bool.true_eq_false, if_false, if_neg hpos, hwall, if_true]
  push_cast
  norm_num

/- ===== Walkability predicate (`Maze.is_wall`) ===== -/

/-- A 2×2 maze whose left column holds floor cells, as parsed from the layout
`["0S", "0f"]` by `Maze.__init__`. -/
def openMaze : Maze :=
  { layout := [['0', 'S'], ['0', 'f']],
    rows := 2, cols := 2, start_pos := (1, 0),
    food_items := [⟨1, 1, false, false⟩] }

/-- C6 counterexample: `(0, 1)` is in bounds (`0 ≤ 0 < cols`, `0 ≤ 1 < rows`)
and its layout cell is `'0'`, not the wall symbol, yet `is_wall` returns
`true` — the code treats all of column 0 (`grid_x < 1`) and row 0
(`grid_y < 1`) as walls, not only out-of-bounds cells and `'1'` cells. -/
theorem is_wall_claim_counterexample :
    ¬(openMaze.is_wall 0 1 = true ↔
      ((0 : ℤ) < 0 ∨ (1 : ℤ) < 0 ∨ (openMaze.cols : ℤ) ≤ 0 ∨
        (openMaze.rows : ℤ) ≤ 1 ∨ openMaze.cellAt 0 1 = '1')) := by
  decide

/-- C6 (amended): `is_wall x y` is true exactly when `x < 1`, `y < 1`,
`x ≥ cols`, `y ≥ rows`, or the layout cell at `(x, y)` is `'1'` — i.e. the
boundary column 0 and row 0 are treated as walls in addition to what the claim
lists; in particular `is_wall` is still always true outside grid bounds and
always true for in-bounds cells marked `'1'`. -/
theorem is_wall_spec (m : Maze) (x y : ℤ) :
    (m.is_wall x y = true ↔
      x < 1 ∨ y < 1 ∨ (m.cols : ℤ) ≤ x ∨ (m.rows : ℤ) ≤ y ∨ m.cellAt x y = '1') ∧
    (x < 0 ∨ y < 0 ∨ (m.cols : ℤ) ≤ x ∨ (m.rows : ℤ) ≤ y → m.is_wall x y = true) ∧
    (0 ≤ x → 0 ≤ y → x < (m.cols : ℤ) → y < (m.rows : ℤ) → m.cellAt x y = '1' →
      m.is_wall x y = true) := by
  have hmain : m.is_wall x y = true ↔
      x < 1 ∨ y < 1 ∨ (m.cols : ℤ) ≤ x ∨ (m.rows : ℤ) ≤ y ∨ m.cellAt x y = '1' := by
    unfold Maze.is_wall
    split_ifs with h1 h2
    · simp only [true_iff]
      rcases h1 with h | h
      · exact Or.inr (Or.inl h)
      · exact Or.inr (Or.inr (Or.inr (Or.inl (by omega))))
    · simp only [true_iff]
      rcases h2 with h | h
      · exact Or.inl h
      · exact Or.inr (Or.inr (Or.inl (by omega)))
    · push_neg at h1 h2
      simp only [decide_eq_true_eq]
      constructor
      · intro h
        exact Or.inr (Or.inr (Or.inr (Or.inr h)))
      · rintro (h | h | h | h | h)
        · exact absurd h (by omega)
        · exact absurd h (by omega)
        · exact absurd h (by omega)
        · exact absurd h (by omega)
        · exact h
  refine ⟨hmain, ?_, ?_⟩
  · intro h
    rw [hmain]
    rcases h with h | h | h | h
    · exact Or.inl (by omega)
    · exact Or.inr (Or.inl (by omega))
    · exact Or.inr (Or.inr (Or.inl h))
    · exact Or.inr (Or.inr (Or.inr (Or.inl h)))
  · intro _ _ _ _ h
    rw [hmain]
    exact Or.inr (Or.inr (Or.inr (Or.inr h)))

/-- Witness for the amended C6 statement: both implication clauses applied at
concrete cells of `boxMaze` — out of bounds at `x = 5`, and the in-bounds
wall cell `(1, 0)` marked `'1'`. -/
theorem is_wall_spec_witness :
    boxMaze.is_wall 5 1 = true ∧ boxMaze.is_wall 1 0 = true := by
  constructor
  · exact (is_wall_spec boxMaze 5 1).2.1 (Or.inr (Or.inr (Or.inl (by norm_num [boxMaze]))))
  · exact (is_wall_spec boxMaze 1 0).2.2 (by norm_num) (le_refl 0)
      (by norm_num [boxMaze]) (by norm_num [boxMaze]) (by decide)

/- ===== Explicit vs randomized food placement (`Maze.__init__`) ===== -/

/-- Layout cell at column `x`, row `y` (`layout[y][x]`), as a partial read. -/
def getCell (layout : List (List Char)) (x y : ℕ) : Option Char :=
  (layout[y]?).bind (fun row => row[x]?)

/-- The layout marks at least one food cell (`'f'` or `'F'`). -/
def hasFoodSymbol (layout : List (List Char)) : Prop :=
  ∃ x y c, getCell layout x y = some c ∧ (c = 'f' ∨ c = 'F')

theorem mem_parseRowFood (y : ℕ) (row : List Char) :
    ∀ (x0 : ℕ) (f : FoodItem), f ∈ parseRowFood y x0 row ↔
      ∃ i c, row[i]? = some c ∧
        ((c = 'f' ∧ f = ⟨(x0 + i : ℕ), (y : ℕ), false, false⟩) ∨
         (c = 'F' ∧ f = ⟨(x0 + i : ℕ), (y : ℕ), true, false⟩)) := by
  induction row with
  | nil => simp [parseRowFood]
  | cons c rest ih =>
    intro x0 f
    constructor
    · intro hmem
      rw [parseRowFood, List.mem_append] at hmem
      rcases hmem with hmem | hmem
      · refine ⟨0, c, by simp, ?_⟩
        split_ifs at hmem with hf hF
        · simp only [List.mem_singleton] at hmem
          subst hf
          exact Or.inl ⟨rfl, by simpa using hmem⟩
        · simp only [List.mem_singleton] at hmem
          subst hF
          exact Or.inr ⟨rfl, by simpa using hmem⟩
        · simp at hmem
      · obtain ⟨i, c1, hget, hcase⟩ := (ih (x0 + 1) f).mp hmem
        refine ⟨i + 1, c1, by simpa using hget, ?_⟩
        have harith : x0 + 1 + i = x0 + (i + 1) := by omega
        rw [harith] at hcase
        exact hcase
    · rintro ⟨i, c1, hget, hcase⟩
      rw [parseRowFood, List.mem_append]
      match i, hget with
      | 0, hget =>
        left
        simp only [List.getElem?_cons_zero, Option.some.injEq] at hget
        subst hget
        rcases hcase with ⟨hc, hf⟩ | ⟨hc, hf⟩
        · rw [if_pos hc, hf]
          simp
        · rw [hc]
          simp only [Char.reduceEq, if_false, if_true, hf]
          simp
      | j + 1, hget =>
        right
        simp only [List.getElem?_cons_succ] at hget
        refine (ih (x0 + 1) f).mpr ⟨j, c1, hget, ?_⟩
        have harith : x0 + (j + 1) = x0 + 1 + j := by omega
        rw [harith] at hcase
        exact hcase

theorem mem_parseFoodAux (layout : List (List Char)) :
    ∀ (y0 : ℕ) (f : FoodItem), f ∈ parseFoodAux y0 layout ↔
      ∃ j row, layout[j]? = some row ∧ f ∈ parseRowFood (y0 + j) 0 row := by
  induction layout with
  | nil => simp [parseFoodAux]
  | cons row rest ih =>
    intro y0 f
    constructor
    · intro hmem
      rw [parseFoodAux, List.mem_append] at hmem
      rcases hmem with hmem | hmem
      · exact ⟨0, row, by simp, by simpa using hmem⟩
      · obtain ⟨j, row1, hget, hrow⟩ := (ih (y0 + 1) f).mp hmem
        refine ⟨j + 1, row1, by simpa using hget, ?_⟩
        have harith : y0 + 1 + j = y0 + (j + 1) := by omega
        rw [harith] at hrow
        exact hrow
    · rintro ⟨j, row1, hget, hrow⟩
      rw [parseFoodAux, List.mem_append]
      match j, hget with
      | 0, hget =>
        left
        simp only [List.getElem?_cons_zero, Option.some.injEq] at hget
        subst hget
        simpa using hrow
      | k + 1, hget =>
        right
        simp only [List.getElem?_cons_succ] at hget
        refine (ih (y0 + 1) f).mpr ⟨k, row1, hget, ?_⟩
        have harith : y0 + (k + 1) = y0 + 1 + k := by omega
        rw [harith] at hrow
        exact hrow

theorem mem_parseFood (layout : List (List Char)) (f : FoodItem) :
    f ∈ parseFood layout ↔
      ∃ x y c, getCell layout x y = some c ∧
        ((c = 'f' ∧ f = ⟨(x : ℕ), (y : ℕ), false, false⟩) ∨
         (c = 'F' ∧ f = ⟨(x : ℕ), (y : ℕ), true, false⟩)) := by
  rw [parseFood, mem_parseFoodAux]
  constructor
  · rintro ⟨j, row, hget, hrow⟩
    obtain ⟨i, c, hcell, hcase⟩ := (mem_parseRowFood (0 + j) row 0 f).mp hrow
    refine ⟨i, j, c, ?_, ?_⟩
    · simp [getCell, hget, hcell]
    · simpa using hcase
  · rintro ⟨x, y, c, hcell, hcase⟩
    rw [getCell] at hcell
    rcases hrow : layout[y]? with _ | row
    · rw [hrow] at hcell
      simp at hcell
    · rw [hrow] at hcell
      have hcell2 : row[x]? = some c := hcell
      refine ⟨y, row, hrow, (mem_parseRowFood (0 + y) row 0 f).mpr ⟨x, c, hcell2, ?_⟩⟩
      simpa using hcase

theorem parseFood_ne_nil_iff (layout : List (List Char)) :
    parseFood layout ≠ [] ↔ hasFoodSymbol layout := by
  constructor
  · intro hne
    match hl : parseFood layout with
    | [] => exact absurd hl hne
    | f :: rest =>
      have hf : f ∈ parseFood layout := by rw [hl]; exact List.mem_cons_self f rest
      obtain ⟨x, y, c, hcell, hcase⟩ := (mem_parseFood layout f).mp hf
      exact ⟨x, y, c, hcell, hcase.imp (fun h => h.1) (fun h => h.1)⟩
  · rintro ⟨x, y, c, hcell, hc⟩
    have : (if c = 'f' then (⟨(x : ℕ), (y : ℕ), false, false⟩ : FoodItem)
            else ⟨(x : ℕ), (y : ℕ), true, false⟩) ∈ parseFood layout := by
      rcases hc with hc | hc
      · rw [if_pos hc]
        exact (mem_parseFood layout _).mpr ⟨x, y, c, hcell, Or.inl ⟨hc, rfl⟩⟩
      · subst hc
        rw [if_neg (by decide)]
        exact (mem_parseFood layout _).mpr ⟨x, y, 'F', hcell, Or.inr ⟨rfl, rfl⟩⟩
    exact List.ne_nil_of_mem this

/-- C10: when the layout marks at least one food cell, the constructed maze's
food list is exactly the parsed list of marked cells — each entry carries the
marked cell's coordinates, the marked size class (`'F'` big, `'f'` small) and
`eaten = false` — independently of `num_small_food`, `num_big_food` and the
randomizer, which runs only when the layout marks no food at all. -/
theorem maze_init_food_spec :
    (∀ (layout : List (List Char)) (ns nb : ℕ) (rf : ℕ → ℕ → List FoodItem) (m : Maze),
      Maze.init layout ns nb rf = .ok m →
        (hasFoodSymbol layout → m.food_items = parseFood layout) ∧
        (¬hasFoodSymbol layout → m.food_items = rf ns nb)) ∧
    (∀ (layout : List (List Char)) (f : FoodItem), f ∈ parseFood layout ↔
      ∃ x y c, getCell layout x y = some c ∧
        ((c = 'f' ∧ f = ⟨(x : ℕ), (y : ℕ), false, false⟩) ∨
         (c = 'F' ∧ f = ⟨(x : ℕ), (y : ℕ), true, false⟩))) := by
  refine ⟨?_, mem_parseFood⟩
  intro layout ns nb rf m hok
  rw [Maze.init] at hok
  rcases hs : parseStart layout with _ | s
  · rw [hs] at hok
    exact absurd hok (by simp)
  · rw [hs] at hok
    simp only [Except.ok.injEq] at hok
    subst hok
    constructor
    · intro hfood
      have hne : parseFood layout ≠ [] := (parseFood_ne_nil_iff layout).mpr hfood
      have hlen : ¬(parseFood layout).length = 0 := by
        simpa [List.length_eq_zero] using hne
      simp [hlen]
    · intro hfood
      have hnil : parseFood layout = [] := by
        by_contra hne
        exact hfood ((parseFood_ne_nil_iff layout).mp hne)
      simp [hnil]

/-- A one-row layout `"Sf"`. -/
def tinyLayout : List (List Char) := [['S', 'f']]

/-- The maze `Maze.__init__` builds from `tinyLayout`. -/
def tinyMaze : Maze :=
  { layout := tinyLayout, rows := 1, cols := 2, start_pos := (0, 0),
    food_items := [⟨1, 0, false, false⟩] }

/-- Witness for C10: constructing a maze from the layout `["Sf"]` (one start,
one explicit small food) with arbitrary requested counts `7`, `9` and a
nonempty randomizer output yields exactly the parsed food list. -/
theorem maze_init_food_spec_witness :
    Maze.init tinyLayout 7 9 (fun _ _ => [⟨0, 0, true, false⟩]) = .ok tinyMaze ∧
      tinyMaze.food_items = parseFood tinyLayout := by
  have hok : Maze.init tinyLayout 7 9 (fun _ _ => [⟨0, 0, true, false⟩]) =
      .ok tinyMaze := rfl
  have hfood : hasFoodSymbol tinyLayout := ⟨1, 0, 'f', by decide, Or.inl rfl⟩
  exact ⟨hok, (maze_init_food_spec.1 tinyLayout 7 9
    (fun _ _ => [⟨0, 0, true, false⟩]) tinyMaze hok).1 hfood⟩

/- ===== Fitness write-back of `eval_genomes` (`simulation.py`) ===== -/

/-- The per-candidate scoring loop of `eval_genomes`
(`for i, agent in enumerate(agents): ge[i].fitness = compute_fitness(...)`).
Scoring one candidate may raise (modelled by `Except ℕ ℚ`); the loop body has
no handler, so the first raised exception propagates out of the loop and the
remaining candidates are never written. -/
def fitnessWriteLoop : List (Except ℕ ℚ) → Except ℕ (List ℚ)
  | [] => .ok []
  | s :: rest =>
    match s with
    | .error e => .error e
    | .ok f => (fitnessWriteLoop rest).map (fun l => f :: l)

/-- The post-loop safety net of `eval_genomes`: every genome whose fitness is
`None` or `≤ 0` is set to `0.1` (after the loop completed, every scored value
is present, so only the `≤ 0` test matters). -/
def ensureFitness (l : List ℚ) : List ℚ :=
  l.map (fun f => if f ≤ 0 then 1 / 10 else f)

/-- Scoring phase of `eval_genomes`: run the write loop, then the safety net;
an exception anywhere aborts the whole phase. -/
def evalGenomesScoring (scores : List (Except ℕ ℚ)) : Except ℕ (List ℚ) :=
  (fitnessWriteLoop scores).map ensureFitness

theorem fitnessWriteLoop_all_ok (qs : List ℚ) :
    fitnessWriteLoop (qs.map Except.ok) = .ok qs := by
  induction qs with
  | nil => rfl
  | cons q rest ih =>
    show (fitnessWriteLoop (rest.map Except.ok)).map (fun l => q :: l) = .ok (q :: rest)
    rw [ih]
    rfl

theorem fitnessWriteLoop_error {scores : List (Except ℕ ℚ)} {e : ℕ}
    (h : Except.error e ∈ scores) : ∃ e2, fitnessWriteLoop scores = .error e2 := by
  induction scores with
  | nil => simp at h
  | cons s rest ih =>
    match s with
    | .error e1 => exact ⟨e1, rfl⟩
    | .ok f =>
      have hrest : Except.error e ∈ rest := by
        rcases List.mem_cons.mp h with h1 | h1
        · exact absurd h1 (by simp)
        · exact h1
      obtain ⟨e2, h2⟩ := ih hrest
      refine ⟨e2, ?_⟩
      show (fitnessWriteLoop rest).map (fun l => f :: l) = .error e2
      rw [h2]
      rfl

/-- C2 counterexample: with three candidates whose scoring yields `5`, an
exception, and `3`, the scoring phase of `eval_genomes` propagates the
exception instead of completing the generation with the failing candidate
floored to `0.1` as the claim predicts. -/
theorem eval_scoring_exception_aborts :
    evalGenomesScoring [Except.ok 5, Except.error 7, Except.ok 3] = Except.error 7 ∧
      evalGenomesScoring [Except.ok 5, Except.error 7, Except.ok 3] ≠
        Except.ok [5, 1 / 10, 3] := by
  refine ⟨rfl, ?_⟩
  intro h
  rw [show evalGenomesScoring [Except.ok 5, Except.error 7, Except.ok 3] =
    Except.error 7 from rfl] at h
  exact Except.noConfusion h

/-- C2 (amended): `eval_genomes` does not catch scoring exceptions.  When every
candidate scores without raising, the loop completes and the post-loop pass
replaces each non-positive fitness with the floor `0.1`; but as soon as any
candidate's scoring raises, the exception propagates and aborts the scoring
phase (no completed write-back exists for the generation). -/
theorem eval_scoring_spec :
    (∀ qs : List ℚ, evalGenomesScoring (qs.map Except.ok) = Except.ok (ensureFitness qs)) ∧
    (∀ (scores : List (Except ℕ ℚ)) (e : ℕ), Except.error e ∈ scores →
      ∃ e2, evalGenomesScoring scores = Except.error e2) := by
  constructor
  · intro qs
    rw [evalGenomesScoring, fitnessWriteLoop_all_ok]
    rfl
  · intro scores e h
    obtain ⟨e2, h2⟩ := fitnessWriteLoop_error h
    exact ⟨e2, by rw [evalGenomesScoring, h2]; rfl⟩

/-- Witness for the amended C2 statement: a fully successful generation
`[5, 0]` completes with the non-positive score floored, and a generation
containing an exception aborts. -/
theorem eval_scoring_spec_witness :
    evalGenomesScoring ([5, 0].map Except.ok) = Except.ok (ensureFitness [5, 0]) ∧
      (Except.error 4 ∈ ([Except.error 4] : List (Except ℕ ℚ)) ∧
        ∃ e2, evalGenomesScoring [Except.error 4] = Except.error e2) := by
  have hmem : Except.error 4 ∈ ([Except.error 4] : List (Except ℕ ℚ)) :=
    List.mem_singleton.mpr rfl
  exact ⟨eval_scoring_spec.1 [5, 0], hmem, eval_scoring_spec.2 [Except.error 4] 4 hmem⟩

/- ===== Top-5 genome archives of `eval_genomes` (`simulation.py`) ===== -/

/-- One archive record: the `(fitness, genome)` pair stored in `top_5_genomes`
and `top_5_robust_genomes`, with the genome represented by its identity
(`genome.key`). -/
structure ArchiveEntry where
  fitness : ℚ
  key : ℕ
deriving DecidableEq, Repr

/-- Descending-fitness order used by
`top_5_genomes.sort(key=lambda x: x[0], reverse=True)`. -/
def fitDesc (a b : ArchiveEntry) : Prop := b.fitness ≤ a.fitness

instance : DecidableRel fitDesc :=
  fun a b => inferInstanceAs (Decidable (b.fitness ≤ a.fitness))

instance : IsTotal ArchiveEntry fitDesc := ⟨fun a b => le_total b.fitness a.fitness⟩

instance : IsTrans ArchiveEntry fitDesc := ⟨fun _ _ _ h1 h2 => le_trans h2 h1⟩

/-- `top_5_genomes[4][0] < best_fitness_this_gen`, the admission test used
once the archive is full (index 4 exists exactly when at least 5 entries do). -/
def fifthLess (ar : List ArchiveEntry) (c : ArchiveEntry) : Bool :=
  match ar[4]? with
  | some e => decide (e.fitness < c.fitness)
  | none => false

/-- The per-generation archive update of `eval_genomes`, shared by
`top_5_genomes` and `top_5_robust_genomes`: skip candidates whose genome key
is already present; admit unconditionally under 5 entries, or when the
candidate's fitness strictly exceeds the 5th entry's; on admission append,
sort descending by fitness and truncate to 5. -/
def top5Update (ar : List ArchiveEntry) (c : ArchiveEntry) : List ArchiveEntry :=
  if c.key ∈ ar.map ArchiveEntry.key then ar
  else if ar.length < 5 ∨ fifthLess ar c = true then
    (List.insertionSort fitDesc (ar ++ [c])).take 5
  else ar

/-- The archive invariant of the spec: at most 5 entries, sorted descending by
fitness, no duplicate genome identity. -/
def ArchiveInv (ar : List ArchiveEntry) : Prop :=
  ar.length ≤ 5 ∧ List.Sorted fitDesc ar ∧ (ar.map ArchiveEntry.key).Nodup

theorem archiveInv_take_sort (ar : List ArchiveEntry) (c : ArchiveEntry)
    (hinv : ArchiveInv ar) (hkey : c.key ∉ ar.map ArchiveEntry.key) :
    ArchiveInv ((List.insertionSort fitDesc (ar ++ [c])).take 5) := by
  obtain ⟨hlen, hsort, hnodup⟩ := hinv
  have hperm : (List.insertionSort fitDesc (ar ++ [c])).Perm (ar ++ [c]) :=
    List.perm_insertionSort fitDesc (ar ++ [c])
  refine ⟨?_, ?_, ?_⟩
  · simp only [List.length_take]
    exact Nat.min_le_left 5 _
  · exact List.Pairwise.sublist (List.take_sublist 5 _)
      (List.sorted_insertionSort fitDesc (ar ++ [c]))
  · have hnd : ((ar ++ [c]).map ArchiveEntry.key).Nodup := by
      rw [List.map_append, List.map_singleton]
      have hperm2 : (ar.map ArchiveEntry.key ++ [c.key]).Perm
          (c.key :: ar.map ArchiveEntry.key) := List.perm_append_singleton _ _
      rw [hperm2.nodup_iff, List.nodup_cons]
      exact ⟨hkey, hnodup⟩
    have hndsort : ((List.insertionSort fitDesc (ar ++ [c])).map ArchiveEntry.key).Nodup :=
      ((hperm.map ArchiveEntry.key).nodup_iff).mpr hnd
    exact List.Sublist.nodup
      (List.Sublist.map ArchiveEntry.key (List.take_sublist 5 _)) hndsort

/-- C7: both top-5 archives satisfy the invariant — at most 5 entries, sorted
descending by fitness, no duplicate genome identity — initially and after
every per-generation update, and the admission rule holds: a candidate with a
new identity enters unconditionally while under 5 entries, enters when its
fitness strictly exceeds the 5th entry's, and when full with no strict excess
the archive is left unchanged. -/
theorem top5_archive_spec :
    ArchiveInv [] ∧
    ∀ (ar : List ArchiveEntry) (c : ArchiveEntry), ArchiveInv ar →
      ArchiveInv (top5Update ar c) ∧
      (c.key ∉ ar.map ArchiveEntry.key → ar.length < 5 → c ∈ top5Update ar c) ∧
      (c.key ∉ ar.map ArchiveEntry.key → ∀ e, ar[4]? = some e →
        e.fitness < c.fitness → c ∈ top5Update ar c) ∧
      (∀ e, ar[4]? = some e → ¬(e.fitness < c.fitness) → top5Update ar c = ar) := by
  refine ⟨⟨by simp, List.sorted_nil, List.nodup_nil⟩, ?_⟩
  intro ar c hinv
  obtain ⟨hlen, hsort, hnodup⟩ := hinv
  refine ⟨?_, ?_, ?_, ?_⟩
  · unfold top5Update
    split_ifs with h1 h2
    · exact ⟨hlen, hsort, hnodup⟩
    · exact archiveInv_take_sort ar c ⟨hlen, hsort, hnodup⟩ h1
    · exact ⟨hlen, hsort, hnodup⟩
  · intro hkey hunder
    unfold top5Update
    rw [if_neg hkey, if_pos (Or.inl hunder)]
    have hlen2 : (ar ++ [c]).length ≤ 5 := by
      simp only [List.length_append, List.length_singleton]
      omega
    have hperm : (List.insertionSort fitDesc (ar ++ [c])).Perm (ar ++ [c]) :=
      List.perm_insertionSort fitDesc (ar ++ [c])
    rw [List.take_of_length_le (by rw [hperm.length_eq]; exact hlen2)]
    exact hperm.mem_iff.mpr (by simp)
  · intro hkey e hfifth hless
    have hcond : fifthLess ar c = true := by
      unfold fifthLess
      rw [hfifth]
      simpa using hless
    unfold top5Update
    rw [if_neg hkey, if_pos (Or.inr hcond)]
    have hlen5 : ar.length = 5 := by
      have h4 : 4 < ar.length := by
        have := List.getElem?_eq_some.mp hfifth
        exact this.1
      omega
    set s := List.insertionSort fitDesc (ar ++ [c]) with hs
    have hperm : s.Perm (ar ++ [c]) := List.perm_insertionSort fitDesc (ar ++ [c])
    have hslen : s.length = 6 := by
      rw [hperm.length_eq]
      simp [hlen5]
    have hcs : c ∈ s := hperm.mem_iff.mpr (by simp)
    by_contra hnotin
    have hsplit : s.take 5 ++ s.drop 5 = s := List.take_append_drop 5 s
    have hdroplen : (s.drop 5).length = 1 := by
      rw [List.length_drop, hslen]
    obtain ⟨d, hd⟩ := List.length_eq_one.mp hdroplen
    have hsd : s = s.take 5 ++ [d] := by rw [← hd, hsplit]
    have hcd : c = d := by
      rcases List.mem_append.mp (hsd ▸ hcs) with h | h
      · exact absurd h hnotin
      · simpa using h
    have hes : e ∈ s := by
      refine hperm.mem_iff.mpr (List.mem_append.mpr (Or.inl ?_))
      exact List.getElem?_mem hfifth
    have hsorted : List.Pairwise fitDesc (s.take 5 ++ [d]) := by
      rw [← hsd]
      exact List.sorted_insertionSort fitDesc (ar ++ [c])
    rcases List.mem_append.mp (hsd ▸ hes) with h | h
    · have hdle : fitDesc e d :=
        (List.pairwise_append.mp hsorted).2.2 e h d (List.mem_singleton.mpr rfl)
      rw [← hcd] at hdle
      exact absurd hless (not_lt.mpr hdle)
    · have hed : e = d := by simpa using h
      rw [← hcd] at hed
      rw [hed] at hless
      exact lt_irrefl _ hless
  · intro e hfifth hless
    have hlen5 : ar.length = 5 := by
      have h4 : 4 < ar.length := (List.getElem?_eq_some.mp hfifth).1
      omega
    have hcond : fifthLess ar c = false := by
      unfold fifthLess
      rw [hfifth]
      simpa using hless
    unfold top5Update
    split_ifs with h1 h2
    · rfl
    · rcases h2 with h2 | h2
      · omega
      · rw [hcond] at h2
        exact absurd h2 (by simp)
    · rfl

/-- A full archive of five entries with distinct keys, descending fitness. -/
def fullArchive : List ArchiveEntry :=
  [⟨50, 1⟩, ⟨40, 2⟩, ⟨30, 3⟩, ⟨20, 4⟩, ⟨10, 5⟩]

/-- Witness for C7: a new candidate enters an under-full archive
unconditionally, and a full archive rejects (leaves unchanged) a candidate
whose fitness does not strictly exceed the 5th entry's. -/
theorem top5_archive_spec_witness :
    (⟨7, 2⟩ : ArchiveEntry) ∈ top5Update [⟨10, 1⟩] ⟨7, 2⟩ ∧
      top5Update fullArchive ⟨7, 6⟩ = fullArchive := by
  have hinv1 : ArchiveInv [⟨10, 1⟩] := by
    refine ⟨by simp, List.sorted_singleton _, by simp⟩
  have hinv5 : ArchiveInv fullArchive := by
    refine ⟨by simp [fullArchive], by decide, by decide⟩
  constructor
  · exact (top5_archive_spec.2 [⟨10, 1⟩] ⟨7, 2⟩ hinv1).2.1 (by decide) (by decide)
  · exact (top5_archive_spec.2 fullArchive ⟨7, 6⟩ hinv5).2.2.2 ⟨10, 5⟩ rfl (by norm_num)

/- ===== Diversity injection (`adaptive_mutation.inject_diversity`) ===== -/

/-- A NEAT genome as `inject_diversity` sees it: its identity `key` and its
(possibly unset) fitness. -/
structure Genome where
  key : ℕ
  fitness : Option ℚ
deriving DecidableEq, Repr

/-- Ranking value `x[1].fitness if x[1].fitness else 0`: an unset fitness
(and, vacuously, a zero one — the falsy branch returns the same value) ranks
as `0`. -/
def rankFit (g : ℕ × Genome) : ℚ :=
  match g.2.fitness with
  | none => 0
  | some v => v

/-- Descending order of `sorted(pop_list, key=..., reverse=True)`. -/
def rankDesc (a b : ℕ × Genome) : Prop := rankFit b ≤ rankFit a

instance : DecidableRel rankDesc :=
  fun a b => inferInstanceAs (Decidable (rankFit b ≤ rankFit a))

instance : IsTotal (ℕ × Genome) rankDesc := ⟨fun a b => le_total (rankFit b) (rankFit a)⟩

instance : IsTrans (ℕ × Genome) rankDesc := ⟨fun _ _ _ h1 h2 => le_trans h2 h1⟩

/-- `max(population.population.keys())` (the Python call raises on an empty
population; the theorems below only use it on nonempty ones). -/
def maxKey (pop : List (ℕ × Genome)) : ℕ :=
  (pop.map Prod.fst).foldr max 0

/-- `inject_diversity` from `adaptive_mutation.py`: rank the population by
fitness descending, keep the first `int(len(pop_list) * 0.70)` entries
(the float truncation agrees with `7·n / 10` for every feasible population
size), then create genomes with fresh ids `max(keys)+1, max(keys)+2, ...` and
placeholder fitness `0.1` for the index range `keep_count ... pop_size-1`.
The genome's random topology from `configure_new` plays no role here. -/
def inject_diversity (pop : List (ℕ × Genome)) (pop_size : ℕ) : List (ℕ × Genome) :=
  (List.insertionSort rankDesc pop).take (7 * pop.length / 10) ++
    (List.range (pop_size - 7 * pop.length / 10)).map
      (fun i => (maxKey pop + 1 + i,
        { key := maxKey pop + 1 + i, fitness := some (1 / 10) }))

/-- A population of three genomes. -/
def threePop : List (ℕ × Genome) :=
  [(0, ⟨0, none⟩), (1, ⟨1, none⟩), (2, ⟨2, none⟩)]

/-- C8 counterexample: `inject_diversity` sizes its output by
`config.pop_size`, not by the incoming population: a population of 3 with
`pop_size = 5` comes back with 5 members, so the claimed size preservation
fails for populations whose size differs from `config.pop_size`. -/
theorem inject_diversity_size_counterexample :
    (inject_diversity threePop 5).length = 5 ∧ threePop.length = 3 ∧
      (inject_diversity threePop 5).length ≠ threePop.length := by
  have hlen : (inject_diversity threePop 5).length = 5 := by
    have hp : (List.insertionSort rankDesc threePop).length = 3 :=
      (List.perm_insertionSort rankDesc threePop).length_eq.trans rfl
    rw [inject_diversity, List.length_append, List.length_take, hp, List.length_map,
      List.length_range]
    simp only [threePop, List.length_cons, List.length_nil]
    omega
  exact ⟨hlen, rfl, by rw [hlen]; norm_num [threePop]⟩

/-- C8 (amended): when the incoming population's size equals
`config.pop_size` (the normal invariant of the evolutionary engine — in
general the output has `max(⌊0.7·N⌋, pop_size)` members, not `N`), the
population size is preserved, the top `⌊0.7·N⌋` candidates of the descending
fitness ranking are kept unchanged as the output's prefix, and every output
member is either one of those kept candidates or a fresh genome: an id
strictly above every incoming id, carrying placeholder fitness `0.1`. -/
theorem inject_diversity_spec (pop : List (ℕ × Genome)) (pop_size : ℕ)
    (hsz : pop.length = pop_size) :
    (inject_diversity pop pop_size).length = pop.length ∧
    (inject_diversity pop pop_size).take (7 * pop.length / 10) =
      (List.insertionSort rankDesc pop).take (7 * pop.length / 10) ∧
    (∀ e ∈ inject_diversity pop pop_size,
      e ∈ (List.insertionSort rankDesc pop).take (7 * pop.length / 10) ∨
        (maxKey pop < e.1 ∧ e.2.key = e.1 ∧ e.2.fitness = some (1 / 10))) := by
  have hkeep : 7 * pop.length / 10 ≤ pop.length := by omega
  have hplen : (List.insertionSort rankDesc pop).length = pop.length :=
    (List.perm_insertionSort rankDesc pop).length_eq
  have htakelen : ((List.insertionSort rankDesc pop).take (7 * pop.length / 10)).length =
      7 * pop.length / 10 := by
    rw [List.length_take, hplen]
    omega
  refine ⟨?_, ?_, ?_⟩
  · rw [inject_diversity, List.length_append, htakelen, List.length_map,
      List.length_range]
    omega
  · rw [inject_diversity]
    exact List.take_left' htakelen
  · intro e he
    rw [inject_diversity] at he
    rcases List.mem_append.mp he with h | h
    · exact Or.inl h
    · obtain ⟨i, _, hi⟩ := List.mem_map.mp h
      refine Or.inr ?_
      rw [← hi]
      exact ⟨by omega, rfl, rfl⟩

/-- Witness for the amended C8 statement: the three-genome population with
`pop_size = 3` keeps its size. -/
theorem inject_diversity_spec_witness :
    (inject_diversity threePop 3).length = threePop.length ∧
      (inject_diversity threePop 3).take (7 * threePop.length / 10) =
        (List.insertionSort rankDesc threePop).take (7 * threePop.length / 10) := by
  exact ⟨(inject_diversity_spec threePop 3 rfl).1, (inject_diversity_spec threePop 3 rfl).2.1⟩

/- ===== Fitness evaluators (`fitness.py`, `fitness_v3.py`) ===== -/

/-- The attributes of a finished rollout read by the fitness functions. -/
structure AgentData where
  trajectory : List (ℤ × ℤ)
  collision_steps : List ℕ
  collected_small : ℕ
  collected_big : ℕ
  energy : ℝ
  steps : ℕ
  max_steps : ℕ

/-- `len(set(trajectory))` (`0` for the empty trajectory, as in the source's
conditional expression). -/
def uniquePositions (t : List (ℤ × ℤ)) : ℕ := t.dedup.length

/-- The scan computing `max_consecutive` in `compute_fitness`: walks adjacent
trajectory pairs, extending the current run of equal positions and recording
the longest run seen. -/
def stayScan : List (ℤ × ℤ) → ℕ → ℕ → ℕ
  | a :: b :: rest, cur, best =>
    if a = b then stayScan (b :: rest) (cur + 1) (max best (cur + 1))
    else stayScan (b :: rest) 0 best
  | _, _, best => best

/-- Longest run of consecutive no-movement ticks. -/
def maxConsecutiveStays (t : List (ℤ × ℤ)) : ℕ := stayScan t 0 0

/-- Consecutive-step displacement vectors `(dx, dy)` of a trajectory. -/
def stepDeltas : List (ℤ × ℤ) → List (ℤ × ℤ)
  | a :: b :: rest => (b.1 - a.1, b.2 - a.2) :: stepDeltas (b :: rest)
  | _ => []

/-- `len(set(directions))` over the nonzero displacement vectors (both
fitness versions collect exactly the deltas different from `(0, 0)`). -/
def uniqueDirections (t : List (ℤ × ℤ)) : ℕ :=
  (((stepDeltas t).filter (fun d => d ≠ (0, 0))).dedup).length

/-- Region index of a trajectory cell: Python floor division
`x // region_size`, `y // region_size`. -/
def regionOf (rs : ℤ) (p : ℤ × ℤ) : ℤ × ℤ := (p.1.fdiv rs, p.2.fdiv rs)

/-- Python `min(...)` over a nonempty list of integers (`0` for `[]`, which
the source never reaches thanks to its nonemptiness guards). -/
def listMinInt : List ℤ → ℤ
  | [] => 0
  | x :: xs => xs.foldl min x

/-- All pairwise Manhattan distances between trajectory cells and food cells
(the double loop of the proximity bonus in `compute_fitness_v3`). -/
def pairManhattan (traj : List (ℤ × ℤ)) (foods : List FoodItem) : List ℤ :=
  (traj.map (fun pos => foods.map
    (fun food => |pos.1 - food.grid_x| + |pos.2 - food.grid_y|))).flatten

/-- The component arithmetic of `compute_fitness` past the minimum-activity
gate: base reward, path efficiency, exploration entropy, collision and
stagnation penalties, movement diversity, energy-efficiency multiplier and
discrete curriculum weights.  The returned value is the pre-floor `fitness`
of the final calculation. -/
noncomputable def fitness_core (a : AgentData) (m : Maze) (generation : ℕ) : ℝ :=
  let total_food := a.collected_small + a.collected_big
  let survival_bonus : ℝ := Real.log ((a.steps : ℝ) + 1) * 15
  let base_reward : ℝ := (a.collected_small : ℝ) * 50 + (a.collected_big : ℝ) * 200 +
    survival_bonus + a.energy * 0.8
  let total_distance := a.trajectory.length
  let spawn_pos := a.trajectory.headD (0, 0)
  let optimal_distance : ℤ := ((m.food_items.filter (fun food => food.eaten)).map
    (fun food => |food.grid_x - spawn_pos.1| + |food.grid_y - spawn_pos.2|)).sum
  let efficiency_bonus : ℝ :=
    if 0 < total_distance ∧ 0 < total_food then
      (if 0 < optimal_distance then
        80 * ((optimal_distance : ℝ) / (total_distance : ℝ)) ^ 2
      else 0)
    else 0
  let region_size : ℕ := max (m.cols / 5) 3
  let regions := a.trajectory.map (regionOf (region_size : ℤ))
  let num_regions_x := (m.cols + region_size - 1) / region_size
  let num_regions_y := (m.rows + region_size - 1) / region_size
  let total_regions := num_regions_x * num_regions_y
  let visit_entropy : ℝ := -(((regions.dedup).map (fun r =>
    if (0 : ℝ) < (regions.count r : ℝ) / (total_distance : ℝ) then
      ((regions.count r : ℝ) / (total_distance : ℝ)) *
        Real.logb 2 ((regions.count r : ℝ) / (total_distance : ℝ))
    else 0)).sum)
  let max_entropy : ℝ := if 1 < total_regions then Real.logb 2 (total_regions : ℝ) else 1
  let normalized_entropy : ℝ := if 0 < max_entropy then visit_entropy / max_entropy else 0
  let coverage_ratio : ℝ :=
    if 0 < total_regions then (regions.dedup.length : ℝ) / (total_regions : ℝ) else 0
  let exploration_bonus : ℝ :=
    if a.trajectory ≠ [] then normalized_entropy * 40 + coverage_ratio * 40 else 0
  let collision_penalty : ℝ := ((a.collision_steps.map (fun step =>
    (4.0 : ℝ) * (if 0 < a.max_steps then Real.exp (-(step : ℝ) / (a.max_steps : ℝ))
                 else 1))).sum)
  let stagnation_penalty : ℝ :=
    if 1 < a.trajectory.length then
      (let position_diversity : ℝ :=
        (uniquePositions a.trajectory : ℝ) / (a.trajectory.length : ℝ)
       (if position_diversity < 0.05 then (300 : ℝ)
        else if position_diversity < 0.15 then 150
        else if position_diversity < 0.30 then 80
        else 30 * (1 - position_diversity)) +
        (if 10 < maxConsecutiveStays a.trajectory then
          (maxConsecutiveStays a.trajectory : ℝ) * 3 else 0))
    else 300
  let movement_bonus : ℝ :=
    if 1 < a.trajectory.length then (uniqueDirections a.trajectory : ℝ) * 10 else 0
  let efficiency_multiplier : ℝ :=
    if 0 < total_food ∧ 0 < total_distance then
      1 / (1 + ((total_distance : ℝ) / (total_food : ℝ)) / 12)
    else 0.3
  let wb : ℝ := if generation < 20 then 0.5 else if generation < 50 then 1.2
    else if generation < 120 then 1.8 else 2.0
  let we : ℝ := if generation < 20 then 0.0 else if generation < 50 then 0.3
    else if generation < 120 then 1.0 else 1.5
  let wx : ℝ := if generation < 20 then 3.0 else if generation < 50 then 1.5
    else if generation < 120 then 0.6 else 0.3
  (base_reward * wb + efficiency_bonus * we + exploration_bonus * wx +
    movement_bonus - collision_penalty - stagnation_penalty) * efficiency_multiplier

/-- `compute_fitness` from `fitness.py`: the generation-dependent
minimum-activity gate short-circuits to a fixed value; otherwise the hybrid
component score is computed and floored at `0.1`. -/
noncomputable def compute_fitness (a : AgentData) (m : Maze) (generation : ℕ) : ℝ :=
  if generation < 30 then
    if uniquePositions a.trajectory < 5 then 0.1
    else max (fitness_core a m generation) 0.1
  else if generation < 100 then
    if uniquePositions a.trajectory < 3 then 0.5
    else max (fitness_core a m generation) 0.1
  else
    if uniquePositions a.trajectory < 2 then 1.0
    else max (fitness_core a m generation) 0.1

/-- `sigmoid_transition` from `fitness_v3.py`. -/
noncomputable def sigmoid_transition (generation midpoint rate : ℝ) : ℝ :=
  1 / (1 + Real.exp (-rate * (generation - midpoint)))

/-- Transition 1, generation 20-40 (`midpoint=30, rate=0.2`). -/
noncomputable def transition1 (g : ℕ) : ℝ := sigmoid_transition (g : ℝ) 30 0.2

/-- Transition 2, generation 70-100 (`midpoint=85, rate=0.15`). -/
noncomputable def transition2 (g : ℕ) : ℝ := sigmoid_transition (g : ℝ) 85 0.15

/-- The late-training ramp `min(generation / 200, 1.0)`. -/
noncomputable def curriculumRamp (g : ℕ) : ℝ := min ((g : ℝ) / 200) 1

/-- The weight dict returned by `get_curriculum_weights`. -/
structure CurriculumWeights where
  food : ℝ
  survival : ℝ
  explore : ℝ
  movement : ℝ
  proximity : ℝ

/-- `get_curriculum_weights` from `fitness_v3.py`: smooth sigmoid
interpolation of the five component weights, floored at `0.1` (the proximity
weight at `0.0`, applied both to the interpolant and to the dict entry). -/
noncomputable def get_curriculum_weights (g : ℕ) : CurriculumWeights :=
  { food := max 0.1 (0.5 + 1 * transition1 g + 0.5 * transition2 g + 0.5 * curriculumRamp g)
    survival := max 0.1 (1 - 0.2 * transition1 g - 0.3 * transition2 g - 0.2 * curriculumRamp g)
    explore := max 0.1 (2 - 0.8 * transition1 g - 0.6 * transition2 g - 0.3 * curriculumRamp g)
    movement := max 0.1 (0.3 + 0.2 * transition1 g - 0.1 * transition2 g)
    proximity := max 0 (max 0 (0.5 - 0.2 * transition1 g - 0.3 * transition2 g)) }

/-- The component arithmetic of `compute_fitness_v3` past the empty-trajectory
guard (the optional write of the component breakdown onto the genome object is
a side channel with no effect on the returned score and is not modelled). -/
noncomputable def fitness_v3_core (a : AgentData) (m : Maze) (generation : ℕ) : ℝ :=
  let food_score : ℝ := (a.collected_small : ℝ) * 50 + (a.collected_big : ℝ) * 200
  let survival_score : ℝ := (a.steps : ℝ) * 0.5
  let exploration_score : ℝ := (uniquePositions a.trajectory : ℝ) * 2.0
  let movement_bonus : ℝ :=
    if 1 < a.trajectory.length then (uniqueDirections a.trajectory : ℝ) * 10 else 0
  let uneaten_food := m.food_items.filter (fun f => f.eaten = false)
  let proximity_bonus : ℝ :=
    if generation < 50 ∧ a.collected_small + a.collected_big = 0 then
      (if uneaten_food ≠ [] ∧ a.trajectory ≠ [] then
        max 0 (50 - (listMinInt (pairManhattan a.trajectory uneaten_food) : ℝ) * 2.5)
      else 0)
    else 0
  let collision_penalty : ℝ := (a.collision_steps.length : ℝ) * 5
  let stagnation_penalty : ℝ :=
    if 10 < a.trajectory.length then
      (if (uniquePositions a.trajectory : ℝ) / (a.trajectory.length : ℝ) < 0.02 then
        (50 : ℝ)
      else if (uniquePositions a.trajectory : ℝ) / (a.trajectory.length : ℝ) < 0.05 then
        20
      else 0)
    else 0
  let w := get_curriculum_weights generation
  food_score * w.food + survival_score * w.survival + exploration_score * w.explore +
    movement_bonus * w.movement + proximity_bonus * w.proximity -
    collision_penalty - stagnation_penalty

/-- `compute_fitness_v3` from `fitness_v3.py`: degenerate inputs (no
trajectory) return `0.1` directly; otherwise the weighted component score is
floored at `0.1`. -/
noncomputable def compute_fitness_v3 (a : AgentData) (m : Maze) (generation : ℕ) : ℝ :=
  if a.trajectory = [] then 0.1
  else max (fitness_v3_core a m generation) 0.1

/-- C1: both fitness evaluators return at least the floor `0.1` on every
agent state (empty and degenerate trajectories included), every maze and
every generation. -/
theorem fitness_floor (a : AgentData) (m : Maze) (generation : ℕ) :
    (0.1 : ℝ) ≤ compute_fitness a m generation ∧
      (0.1 : ℝ) ≤ compute_fitness_v3 a m generation := by
  constructor
  · unfold compute_fitness
    split_ifs <;> norm_num [le_max_iff]
  · unfold compute_fitness_v3
    split_ifs <;> norm_num [le_max_iff]

/-- C4: the minimum-activity gate short-circuits `compute_fitness` to the
fixed value `0.1` when fewer than 5 distinct cells were visited before
generation 30, to `0.5` under 3 distinct cells at generations 30-99, and to
`1.0` under 2 distinct cells from generation 100 on — regardless of food,
energy, survival or any other component. -/
theorem minimum_activity_gate (a : AgentData) (m : Maze) (g : ℕ) :
    (g < 30 → uniquePositions a.trajectory < 5 → compute_fitness a m g = 0.1) ∧
    (30 ≤ g → g < 100 → uniquePositions a.trajectory < 3 → compute_fitness a m g = 0.5) ∧
    (100 ≤ g → uniquePositions a.trajectory < 2 → compute_fitness a m g = 1.0) := by
  unfold compute_fitness
  refine ⟨?_, ?_, ?_⟩
  · intro h1 h2
    rw [if_pos h1, if_pos h2]
  · intro h1 h2 h3
    rw [if_neg (not_lt.mpr h1), if_pos h2, if_pos h3]
  · intro h1 h2
    rw [if_neg (by omega : ¬g < 30), if_neg (by omega : ¬g < 100), if_pos h2]

/-- A one-cell trajectory with plenty of food, energy and survival. -/
def gateAgent : AgentData :=
  { trajectory := [(1, 1)], collision_steps := [], collected_small := 9,
    collected_big := 9, energy := 500, steps := 77, max_steps := 300 }

/-- Witness for C4: the stand-still agent receives exactly the gate values
`0.1`, `0.5` and `1.0` at generations 0, 50 and 150 despite its riches. -/
theorem minimum_activity_gate_witness :
    compute_fitness gateAgent tinyMaze 0 = 0.1 ∧
      compute_fitness gateAgent tinyMaze 50 = 0.5 ∧
      compute_fitness gateAgent tinyMaze 150 = 1.0 := by
  refine ⟨(minimum_activity_gate gateAgent tinyMaze 0).1 (by norm_num) (by decide),
    (minimum_activity_gate gateAgent tinyMaze 50).2.1 (by norm_num) (by norm_num) (by decide),
    (minimum_activity_gate gateAgent tinyMaze 150).2.2 (by norm_num) (by decide)⟩

theorem sigmoid_transition_mono {mid rate : ℝ} (hrate : 0 < rate) {x y : ℝ}
    (hxy : x ≤ y) : sigmoid_transition x mid rate ≤ sigmoid_transition y mid rate := by
  unfold sigmoid_transition
  have h1 : Real.exp (-rate * (y - mid)) ≤ Real.exp (-rate * (x - mid)) :=
    Real.exp_le_exp.mpr (by nlinarith)
  have h2 : 0 < 1 + Real.exp (-rate * (y - mid)) := by positivity
  exact one_div_le_one_div_of_le h2 (by linarith)

theorem sigmoid_transition_pos (g mid rate : ℝ) : 0 < sigmoid_transition g mid rate := by
  unfold sigmoid_transition
  positivity

theorem sigmoid_transition_lt_one (g mid rate : ℝ) : sigmoid_transition g mid rate < 1 := by
  unfold sigmoid_transition
  rw [div_lt_one (by positivity)]
  linarith [Real.exp_pos (-rate * (g - mid))]

theorem transition1_mono {g1 g2 : ℕ} (h : g1 ≤ g2) : transition1 g1 ≤ transition1 g2 :=
  sigmoid_transition_mono (by norm_num) (Nat.cast_le.mpr h)

theorem transition2_mono {g1 g2 : ℕ} (h : g1 ≤ g2) : transition2 g1 ≤ transition2 g2 :=
  sigmoid_transition_mono (by norm_num) (Nat.cast_le.mpr h)

theorem curriculumRamp_mono {g1 g2 : ℕ} (h : g1 ≤ g2) :
    curriculumRamp g1 ≤ curriculumRamp g2 := by
  unfold curriculumRamp
  have hc : ((g1 : ℝ)) ≤ (g2 : ℝ) := Nat.cast_le.mpr h
  exact min_le_min (by linarith) le_rfl

/-- C9: the curriculum weights of `fitness_v3.py` are monotone as claimed —
exploration, survival and proximity weights never increase with the
generation, the food weight never decreases — and all five returned weights
are strictly positive at every generation. -/
theorem curriculum_weights_spec :
    (∀ g1 g2 : ℕ, g1 ≤ g2 →
      (get_curriculum_weights g2).explore ≤ (get_curriculum_weights g1).explore ∧
      (get_curriculum_weights g2).survival ≤ (get_curriculum_weights g1).survival ∧
      (get_curriculum_weights g2).proximity ≤ (get_curriculum_weights g1).proximity ∧
      (get_curriculum_weights g1).food ≤ (get_curriculum_weights g2).food) ∧
    (∀ g : ℕ,
      0 < (get_curriculum_weights g).food ∧ 0 < (get_curriculum_weights g).survival ∧
      0 < (get_curriculum_weights g).explore ∧ 0 < (get_curriculum_weights g).movement ∧
      0 < (get_curriculum_weights g).proximity) := by
  constructor
  · intro g1 g2 h
    have ht1 := transition1_mono h
    have ht2 := transition2_mono h
    have hr := curriculumRamp_mono h
    unfold get_curriculum_weights
    refine ⟨?_, ?_, ?_, ?_⟩
    · exact max_le_max le_rfl (by linarith)
    · exact max_le_max le_rfl (by linarith)
    · exact max_le_max le_rfl (max_le_max le_rfl (by linarith))
    · exact max_le_max le_rfl (by linarith)
  · intro g
    have ht1a : 0 < transition1 g := sigmoid_transition_pos (g : ℝ) 30 0.2
    have ht1b : transition1 g < 1 := sigmoid_transition_lt_one (g : ℝ) 30 0.2
    have ht2a : 0 < transition2 g := sigmoid_transition_pos (g : ℝ) 85 0.15
    have ht2b : transition2 g < 1 := sigmoid_transition_lt_one (g : ℝ) 85 0.15
    unfold get_curriculum_weights
    have hfloor : ∀ x : ℝ, (0 : ℝ) < max 0.1 x := fun x =>
      lt_of_lt_of_le (by norm_num) (le_max_left 0.1 x)
    refine ⟨hfloor _, hfloor _, hfloor _, hfloor _, ?_⟩
    have hinner : (0 : ℝ) < 0.5 - 0.2 * transition1 g - 0.3 * transition2 g := by
      linarith
    exact lt_of_lt_of_le (lt_of_lt_of_le hinner (le_max_right 0 _)) (le_max_right 0 _)

/-- Witness for C9: the monotonicity clause at generations `0 ≤ 1` and the
positivity clause at generation 0. -/
theorem curriculum_weights_spec_witness :
    ((get_curriculum_weights 1).explore ≤ (get_curriculum_weights 0).explore ∧
      (get_curriculum_weights 1).survival ≤ (get_curriculum_weights 0).survival ∧
      (get_curriculum_weights 1).proximity ≤ (get_curriculum_weights 0).proximity ∧
      (get_curriculum_weights 0).food ≤ (get_curriculum_weights 1).food) ∧
    (0 < (get_curriculum_weights 0).food ∧ 0 < (get_curriculum_weights 0).survival ∧
      0 < (get_curriculum_weights 0).explore ∧ 0 < (get_curriculum_weights 0).movement ∧
      0 < (get_curriculum_weights 0).proximity) :=
  ⟨curriculum_weights_spec.1 0 1 (by norm_num), curriculum_weights_spec.2 0⟩
